import Mathlib

/-!
Shallow embedding of the `mutagen` runner (`src/runner/src/main.rs`):
catalog parsing (`Mutation::from`, `read_mutations`), the mutation loop
(`run_mutations`), the orchestrator (`run`) and the process exit behaviour
(`main`).  Strings are modelled as `List Char`; the fallible Rust functions
return `Except` with the error messages the source builds via `format_err!`.
-/

set_option autoImplicit false

deriving instance DecidableEq for Except

namespace Mutagen

/-- A Rust string, modelled as its character list. -/
abbrev Str := List Char

/-- Errors (`failure::Error`) carry a rendered message. -/
abbrev Err := Str

/-- `isPrefix p s` models Rust `str::starts_with`: `p` is a prefix of `s`. -/
def isPrefix : Str → Str → Bool
  | [], _ => true
  | _ :: _, [] => false
  | a :: as, b :: bs => a = b && isPrefix as bs

/-- `findSplit sep s` models one step of Rust `str::splitn(2, sep)`:
split `s` at the FIRST occurrence of `sep` into `(before, after)`;
`none` when `sep` does not occur (i.e. the second `next()` is `None`). -/
def findSplit (sep : Str) : Str → Option (Str × Str)
  | [] => if sep.isEmpty then some ([], []) else none
  | c :: cs =>
    if isPrefix sep (c :: cs) then some ([], (c :: cs).drop sep.length)
    else
      match findSplit sep cs with
      | some (pre, post) => some (c :: pre, post)
      | none => none

/-- `occurs pat s`: `pat` occurs as a contiguous substring of `s`. -/
def occurs (pat s : Str) : Bool := (findSplit pat s).isSome

/-- Rust `char::to_digit(10)`. -/
def digitVal (c : Char) : Option Nat :=
  if '0' ≤ c ∧ c ≤ '9' then some (c.toNat - '0'.toNat) else none

/-- Message of Rust `ParseIntError` kind `Empty`. -/
def emptyIntMsg : Str := "cannot parse integer from empty string".toList

/-- Message of Rust `ParseIntError` kind `InvalidDigit`. -/
def invalidDigitMsg : Str := "invalid digit found in string".toList

/-- Message of Rust `ParseIntError` kind `PosOverflow`. -/
def posOverflowMsg : Str := "number too large to fit in target type".toList

/-- `usize` is 64 bits wide. -/
def usizeBound : Nat := 2 ^ 64

/-- The digit-consuming loop of Rust `usize::from_str`: accumulate the value,
failing on a non-digit character or on overflow past `usize::MAX`. -/
def parseUsizeLoop : Nat → Str → Except Err Nat
  | acc, [] => .ok acc
  | acc, c :: cs =>
    match digitVal c with
    | none => .error invalidDigitMsg
    | some d =>
      if acc * 10 + d < usizeBound then parseUsizeLoop (acc * 10 + d) cs
      else .error posOverflowMsg

/-- The numeric value of a digit string, accumulated exactly as
`parseUsizeLoop` does (without the overflow check). -/
def digitsAccVal : Nat → Str → Nat
  | acc, [] => acc
  | acc, c :: cs => digitsAccVal (acc * 10 + (c.toNat - '0'.toNat)) cs

/-- Rust `str::parse::<usize>()` (`usize::from_str`): empty input is an
`Empty` error; an optional leading `+` is stripped (a bare `+` is an
`InvalidDigit` error); then at least one decimal digit, value below
`2^64`. -/
def parseUsize (s : Str) : Except Err Nat :=
  match s with
  | [] => .error emptyIntMsg
  | c :: rest =>
    if c = '+' then
      if rest.isEmpty then .error invalidDigitMsg else parseUsizeLoop 0 rest
    else parseUsizeLoop 0 (c :: rest)

/-- The literal separator `" - "` after the count field. -/
def sep1 : Str := " - ".toList

/-- The literal separator `" @ "` after the description field. -/
def sep2 : Str := " @ ".toList

/-- `Mutation` of `main.rs`: count/identifier, kind of mutation, span. -/
structure Mutation where
  count : Nat
  description : Str
  span : Str
  deriving DecidableEq, Repr

/-- Error message `format_err!("Count separator not found on mutation {}", mutation)`. -/
def countSepMsg (line : Str) : Err :=
  "Count separator not found on mutation ".toList ++ line

/-- Error message `format_err!("Description separator not found {}", mutation)`. -/
def descSepMsg (line : Str) : Err :=
  "Description separator not found ".toList ++ line

/-- `Mutation::from`: split at the first `" - "`, then the tail at the first
`" @ "`, then parse the count as `usize`; each failure is the source's error. -/
def Mutation.fromLine (line : Str) : Except Err Mutation :=
  match findSplit sep1 line with
  | none => .error (countSepMsg line)
  | some (strCount, tail) =>
    match findSplit sep2 tail with
    | none => .error (descSepMsg line)
    | some (description, span) =>
      match parseUsize strCount with
      | .error e => .error e
      | .ok n => .ok ⟨n, description, span⟩

example :
    Mutation.fromLine "2 - add one to int constant @ src/lib.rs:27:21: 27:22".toList =
      .ok ⟨2, "add one to int constant".toList, "src/lib.rs:27:21: 27:22".toList⟩ := by
  decide

example : (Mutation.fromLine "non-numeric count - description ok @ span ok".toList).isOk = false := by decide
example : (Mutation.fromLine "no count separator".toList).isOk = false := by decide
example : (Mutation.fromLine "1 - no span separator".toList).isOk = false := by decide

/-- Modelled from the spec: `runner::Status`, the classified outcome of one
execution of the test binary (`runner.rs` is not under `src/`).  The spec's
Process Execution Primitive classifies exit code 0 as passed, nonzero exit as
failed, and an elapsed timeout as timed out; `main.rs` only discriminates
`Status::Success` from the rest. -/
inductive Status where
  | success
  | failure
  | timeout
  deriving DecidableEq, Repr

/-- A runner (`FullSuiteRunner`/`CoverageRunner` behind `&mut Runner`),
modelled from the spec as its `run` method: mutation id (0 = baseline) to a
classified outcome, or a hard error (launch failure etc.). -/
abbrev RunnerFn := Nat → Except Err Status

/-- Verdict printed for one mutation: `"SURVIVED :("` or `"caught"`. -/
inductive Verdict where
  | survived
  | caught
  deriving DecidableEq, Repr

/-- Observable side effects of the orchestrator, in order: the
`remove_file("target/mutagen/loops.txt")` call, a baseline execution
(`runner.run(0)`), and a per-mutation execution (`runner.run(count)`). -/
inductive Event where
  | removeLoops
  | baselineRun
  | mutationRun (count : Nat)
  deriving DecidableEq, Repr

/-- What `run_mutations` prints at the end: the per-mutation verdicts, the
overall status string (`"ok"` or `"FAILED"`), and the two counts
`list.len() - failures` (caught) and `failures` (undetected). -/
structure Summary where
  results : List (Mutation × Verdict)
  status : Str
  caughtCount : Nat
  undetectedCount : Nat
  deriving DecidableEq, Repr

/-- The loop body of `run_mutations`: parse each line, run the mutation,
record the verdict (`Status::Success` means survived and bumps `failures`);
`?` aborts on a parse error or a runner error.  Returns the executed-mutation
events alongside the verdicts and the final `failures` counter. -/
def runMutationsLoop (runner : RunnerFn) :
    List Str → Nat → List Event × Except Err (List (Mutation × Verdict) × Nat)
  | [], failures => ([], .ok ([], failures))
  | m :: rest, failures =>
    match Mutation.fromLine m with
    | .error e => ([], .error e)
    | .ok mutation =>
      match runner mutation.count with
      | .error e => ([.mutationRun mutation.count], .error e)
      | .ok result =>
        (.mutationRun mutation.count ::
            (runMutationsLoop runner rest
              (if result = Status.success then failures + 1 else failures)).1,
          (runMutationsLoop runner rest
              (if result = Status.success then failures + 1 else failures)).2.map
            (fun p =>
              ((mutation,
                  if result = Status.success then Verdict.survived else Verdict.caught) :: p.1,
                p.2)))

/-- `run_mutations(runner, list)`: run the loop starting from `failures = 0`
and report `"ok"` iff `failures == 0`, else `"FAILED"`, with counts
`list.len() - failures` caught and `failures` undetected. -/
def runMutations (runner : RunnerFn) (list : List Str) :
    List Event × Except Err Summary :=
  ((runMutationsLoop runner list 0).1,
    (runMutationsLoop runner list 0).2.map (fun p =>
      { results := p.1
        status := if p.2 = 0 then "ok".toList else "FAILED".toList
        caughtCount := list.length - p.2
        undetectedCount := p.2 }))

/-- `read_mutations` on the file content it managed to read: split on `"\n"`
and drop empty lines. -/
def splitNl : Str → List Str
  | [] => [[]]
  | c :: cs =>
    if c = '\n' then [] :: splitNl cs
    else
      match splitNl cs with
      | [] => [[c]]
      | l :: ls => (c :: l) :: ls

/-- `read_mutations(filename)`: the file open/read may fail (the `Except`
argument); its content is split on newlines with empty lines filtered out. -/
def readMutations (content : Except Err Str) : Except Err (List Str) :=
  content.map (fun s => (splitNl s).filter (fun l => !l.isEmpty))

/-- The environment `run()` interacts with: outcomes of `compile_tests()`
(the test executable paths), `get_mutations_filename()`, the catalog file
read, the `--coverage` flag, and the behaviour of `runner.run` for each test
executable (both runner strategies expose the same `run(id)` contract). -/
structure Env where
  compileTests : Except Err (List Str)
  mutationsFilename : Except Err Str
  fileContent : Except Err Str
  withCoverage : Bool
  runnerRun : Str → RunnerFn

/-- `bail!` message when `compile_tests()` finds no executable. -/
def noExeMsg : Err := "executable path not found".toList

/-- `bail!` message wrapping a baseline `runner.run(0)` hard error. -/
def horribleMsg (e : Err) : Err :=
  "Something horrible went wrong and I don't even know what: ".toList ++ e

/-- The per-executable loop of `run()`: for each test executable, run the
baseline (`runner.run(0)`, bailing only when it returns a hard `Err`), then
`run_mutations`; collect each executable's summary. -/
def runExes (env : Env) (list : List Str) :
    List Str → List Event × Except Err (List Summary)
  | [] => ([], .ok [])
  | exe :: rest =>
    match env.runnerRun exe 0 with
    | .error e => ([.baselineRun], .error (horribleMsg e))
    | .ok _ =>
      match (runMutations (env.runnerRun exe) list).2 with
      | .error e => (.baselineRun :: (runMutations (env.runnerRun exe) list).1, .error e)
      | .ok summary =>
        (.baselineRun ::
            ((runMutations (env.runnerRun exe) list).1 ++ (runExes env list rest).1),
          (runExes env list rest).2.map (fun ss => summary :: ss))

/-- `run()`: compile the tests, bail when no executable was produced, locate
and read the catalog, remove `target/mutagen/loops.txt`, then loop over the
executables.  Returns the event trace and the summaries (or the fatal
error). -/
def run (env : Env) : List Event × Except Err (List Summary) :=
  match env.compileTests with
  | .error e => ([], .error e)
  | .ok tests =>
    if tests.isEmpty then ([], .error noExeMsg)
    else
      match env.mutationsFilename with
      | .error e => ([], .error e)
      | .ok _ =>
        match readMutations env.fileContent with
        | .error e => ([], .error e)
        | .ok list =>
          (Event.removeLoops :: (runExes env list tests).1, (runExes env list tests).2)

/-- `main()`: exit code 0 when `run()` returns `Ok`, 1 when it returns
`Err`. -/
def mainExitCode (env : Env) : Nat :=
  match (run env).2 with
  | .ok _ => 0
  | .error _ => 1

/-- A fixture environment: one test executable, a one-line catalog, and a
runner for which every execution (baseline and mutation) passes, so the
single mutation survives. -/
def envSurvivor : Env :=
  { compileTests := .ok ["exe".toList]
    mutationsFilename := .ok "target/mutagen/mutations.txt".toList
    fileContent := .ok "1 - d @ s".toList
    withCoverage := false
    runnerRun := fun _ _ => .ok Status.success }

/-- A fixture environment: one test executable, a one-line catalog, a runner
whose baseline run (id 0) reports failing tests (`Ok(Failure)`, not a hard
error) and whose mutation run times out. -/
def envBaselineFails : Env :=
  { compileTests := .ok ["exe".toList]
    mutationsFilename := .ok "target/mutagen/mutations.txt".toList
    fileContent := .ok "1 - d @ s".toList
    withCoverage := false
    runnerRun := fun _ n => if n = 0 then .ok Status.failure else .ok Status.timeout }

/-! ### Properties of the string primitives -/

theorem isPrefix_iff_take (p s : Str) : isPrefix p s = true ↔ s.take p.length = p := by
  induction p generalizing s with
  | nil => simp [isPrefix]
  | cons a as ih =>
    cases s with
    | nil => simp [isPrefix]
    | cons b bs =>
      simp only [isPrefix, Bool.and_eq_true, decide_eq_true_eq, List.length_cons,
        List.take_succ_cons, List.cons.injEq, ih]
      exact ⟨fun ⟨h1, h2⟩ => ⟨h1.symm, h2⟩, fun ⟨h1, h2⟩ => ⟨h1.symm, h2⟩⟩

theorem isPrefix_append_self (p t : Str) : isPrefix p (p ++ t) = true := by
  rw [isPrefix_iff_take, List.take_left]

theorem isPrefix_decomp {p s : Str} (h : isPrefix p s = true) : s = p ++ s.drop p.length := by
  rw [isPrefix_iff_take] at h
  conv_lhs => rw [← List.take_append_drop p.length s, h]

theorem isPrefix_congr {p t₁ t₂ : Str} (h : t₁.take p.length = t₂.take p.length) :
    isPrefix p t₁ = isPrefix p t₂ := by
  have hiff : isPrefix p t₁ = true ↔ isPrefix p t₂ = true := by
    rw [isPrefix_iff_take, isPrefix_iff_take, h]
  cases h1 : isPrefix p t₁ with
  | true => exact (hiff.mp h1).symm
  | false =>
    cases h2 : isPrefix p t₂ with
    | true => exact absurd (h1.symm.trans (hiff.mpr h2)) Bool.false_ne_true
    | false => rfl

theorem findSplit_some {sep : Str} (hsep : sep ≠ []) :
    ∀ {s pre post : Str}, findSplit sep s = some (pre, post) →
      s = pre ++ sep ++ post ∧ ∀ i < pre.length, isPrefix sep (s.drop i) = false := by
  have hne : sep.isEmpty = false := by
    cases sep with
    | nil => exact absurd rfl hsep
    | cons a as => rfl
  intro s
  induction s with
  | nil =>
    intro pre post h
    simp [findSplit, hne] at h
  | cons c cs ih =>
    intro pre post h
    cases hp : isPrefix sep (c :: cs) with
    | true =>
      rw [findSplit, if_pos hp] at h
      simp only [Option.some.injEq, Prod.mk.injEq] at h
      obtain ⟨hpre, hpost⟩ := h
      refine ⟨?_, ?_⟩
      · rw [← hpre, ← hpost, List.nil_append]
        exact isPrefix_decomp hp
      · intro i hi
        rw [← hpre] at hi
        exact absurd hi (by simp)
    | false =>
      simp only [findSplit, hp, Bool.false_eq_true, if_false] at h
      cases hfs : findSplit sep cs with
      | none => rw [hfs] at h; exact absurd h (by simp)
      | some pp =>
        obtain ⟨pre', post'⟩ := pp
        rw [hfs] at h
        simp only [Option.some.injEq, Prod.mk.injEq] at h
        obtain ⟨hpre, hpost⟩ := h
        obtain ⟨ih1, ih2⟩ := ih hfs
        refine ⟨?_, ?_⟩
        · rw [← hpre, ← hpost, List.cons_append, List.cons_append, ih1]
        · intro i hi
          cases i with
          | zero => simpa using hp
          | succ j =>
            rw [← hpre] at hi
            simp only [List.length_cons, Nat.succ_lt_succ_iff] at hi
            simpa using ih2 j hi

theorem findSplit_append {sep : Str} (hsep : sep ≠ []) :
    ∀ (pre post : Str), (∀ i < pre.length, isPrefix sep ((pre ++ (sep ++ post)).drop i) = false) →
      findSplit sep (pre ++ (sep ++ post)) = some (pre, post) := by
  intro pre
  induction pre with
  | nil =>
    intro post _
    cases hs : sep with
    | nil => exact absurd hs hsep
    | cons a as =>
      subst hs
      show findSplit (a :: as) (a :: (as ++ post)) = some ([], post)
      have hp : isPrefix (a :: as) (a :: (as ++ post)) = true := isPrefix_append_self (a :: as) post
      rw [findSplit, if_pos hp]
      simp only [List.length_cons, List.drop_succ_cons, List.drop_left]
  | cons p pre' ih =>
    intro post h
    have h0 : isPrefix sep (p :: (pre' ++ (sep ++ post))) = false := by
      have := h 0 (by simp)
      simpa using this
    have hrest : findSplit sep (pre' ++ (sep ++ post)) = some (pre', post) := by
      apply ih
      intro i hi
      have := h (i + 1) (by simpa using Nat.succ_lt_succ hi)
      simpa using this
    show findSplit sep (p :: (pre' ++ (sep ++ post))) = some (p :: pre', post)
    rw [findSplit, if_neg (by simp [h0]), hrest]

theorem occurs_nil (s : Str) : occurs [] s = true := by
  cases s <;> simp [occurs, findSplit, isPrefix]

theorem occurs_of_isPrefix_drop {pat s : Str} (i : Nat) (h : isPrefix pat (s.drop i) = true) :
    occurs pat s = true := by
  induction s generalizing i with
  | nil =>
    cases pat with
    | nil => exact occurs_nil []
    | cons a as => rw [List.drop_nil] at h; exact absurd h (by simp [isPrefix])
  | cons c cs ih =>
    cases i with
    | zero =>
      rw [List.drop_zero] at h
      simp [occurs, findSplit, h]
    | succ j =>
      have hcs : occurs pat cs = true := ih j (by simpa using h)
      cases hp : isPrefix pat (c :: cs) with
      | true => simp [occurs, findSplit, hp]
      | false =>
        rw [occurs] at hcs ⊢
        rw [findSplit, if_neg (by simp [hp])]
        cases hfs : findSplit pat cs with
        | none => rw [hfs] at hcs; exact absurd hcs (by simp)
        | some pp => obtain ⟨pre, post⟩ := pp; simp

theorem occurs_append_middle (pre mid post : Str) : occurs mid (pre ++ (mid ++ post)) = true := by
  cases hm : mid with
  | nil => exact occurs_nil _
  | cons a as =>
    rw [← hm]
    apply occurs_of_isPrefix_drop pre.length
    rw [List.drop_left]
    exact isPrefix_append_self _ _

theorem occurs_decomp {pat s : Str} (hp : pat ≠ []) (h : occurs pat s = true) :
    ∃ pre post, s = pre ++ pat ++ post := by
  rw [occurs] at h
  cases hfs : findSplit pat s with
  | none => rw [hfs] at h; exact absurd h (by simp)
  | some pp =>
    obtain ⟨pre, post⟩ := pp
    exact ⟨pre, post, (findSplit_some hp hfs).1⟩

theorem occurs_trans {pat mid s : Str} (hpat : pat ≠ []) (hmid : mid ≠ [])
    (h1 : occurs pat mid = true) (h2 : occurs mid s = true) : occurs pat s = true := by
  obtain ⟨p, q, hm⟩ := occurs_decomp hpat h1
  obtain ⟨u, v, hs⟩ := occurs_decomp hmid h2
  rw [hm] at hs
  apply occurs_of_isPrefix_drop (u ++ p).length
  have hs2 : s = (u ++ p) ++ (pat ++ (q ++ v)) := by rw [hs]; simp [List.append_assoc]
  rw [hs2, List.drop_left]
  exact isPrefix_append_self _ _

theorem digitsAccVal_nil (acc : Nat) : digitsAccVal acc [] = acc := rfl

theorem digitsAccVal_cons (acc : Nat) (c : Char) (cs : Str) :
    digitsAccVal acc (c :: cs) = digitsAccVal (acc * 10 + (c.toNat - '0'.toNat)) cs := rfl

theorem digitsAccVal_mono (ds : Str) : ∀ acc, acc ≤ digitsAccVal acc ds := by
  induction ds with
  | nil => intro acc; rw [digitsAccVal_nil]
  | cons c cs ih =>
    intro acc
    have h1 : acc ≤ acc * 10 + (c.toNat - '0'.toNat) := by omega
    rw [digitsAccVal_cons]
    exact le_trans h1 (ih (acc * 10 + (c.toNat - '0'.toNat)))

theorem parseUsizeLoop_ok (ds : Str) :
    ∀ acc, (∀ c ∈ ds, '0' ≤ c ∧ c ≤ '9') → digitsAccVal acc ds < usizeBound →
      parseUsizeLoop acc ds = .ok (digitsAccVal acc ds) := by
  induction ds with
  | nil => intro acc _ _; rfl
  | cons c cs ih =>
    intro acc hd hb
    have hc := hd c (List.mem_cons_self c cs)
    have hdv : digitVal c = some (c.toNat - '0'.toNat) := by simp [digitVal, hc]
    have hb' : digitsAccVal (acc * 10 + (c.toNat - '0'.toNat)) cs < usizeBound := by
      rw [digitsAccVal_cons] at hb
      exact hb
    have hlt : acc * 10 + (c.toNat - '0'.toNat) < usizeBound :=
      lt_of_le_of_lt (digitsAccVal_mono cs _) hb'
    rw [digitsAccVal_cons]
    simp only [parseUsizeLoop, hdv, hlt, if_true]
    exact ih _ (fun x hx => hd x (List.mem_cons_of_mem c hx)) hb'

theorem parseUsize_digits {ds : Str} (h0 : ds ≠ []) (hd : ∀ c ∈ ds, '0' ≤ c ∧ c ≤ '9')
    (hb : digitsAccVal 0 ds < usizeBound) : parseUsize ds = .ok (digitsAccVal 0 ds) := by
  cases ds with
  | nil => exact absurd rfl h0
  | cons c cs =>
    have hc := hd c (List.mem_cons_self c cs)
    have hcp : c ≠ '+' := by
      intro h
      rw [h] at hc
      exact absurd hc.1 (by decide)
    rw [parseUsize, if_neg hcp]
    exact parseUsizeLoop_ok _ 0 hd hb

theorem parseUsizeLoop_error (ds : Str) :
    ∀ acc e, parseUsizeLoop acc ds = .error e → e = invalidDigitMsg ∨ e = posOverflowMsg := by
  induction ds with
  | nil => intro acc e h; exact absurd h (by simp [parseUsizeLoop])
  | cons c cs ih =>
    intro acc e h
    rw [parseUsizeLoop] at h
    cases hdv : digitVal c with
    | none => rw [hdv] at h; simp at h; exact Or.inl h.symm
    | some d =>
      rw [hdv] at h
      simp only at h
      by_cases hlt : acc * 10 + d < usizeBound
      · rw [if_pos hlt] at h; exact ih _ _ h
      · rw [if_neg hlt] at h; simp at h; exact Or.inr h.symm

theorem parseUsize_error {s : Str} {e : Err} (h : parseUsize s = .error e) :
    e = emptyIntMsg ∨ e = invalidDigitMsg ∨ e = posOverflowMsg := by
  cases s with
  | nil => rw [parseUsize] at h; simp at h; exact Or.inl h.symm
  | cons c cs =>
    rw [parseUsize] at h
    by_cases hcp : c = '+'
    · rw [if_pos hcp] at h
      cases cs with
      | nil => simp [List.isEmpty] at h; exact Or.inr (Or.inl h.symm)
      | cons d ds =>
        rw [if_neg (by simp)] at h
        exact Or.inr (parseUsizeLoop_error _ _ _ h)
    · rw [if_neg hcp] at h
      exact Or.inr (parseUsizeLoop_error _ _ _ h)

/-! ### Properties of the mutation loop -/

theorem exceptMap_error {α β : Type} (f : α → β) (e : Err) :
    Except.map f (.error e : Except Err α) = .error e := rfl

theorem exceptMap_ok {α β : Type} (f : α → β) (a : α) :
    Except.map f (.ok a : Except Err α) = .ok (f a) := rfl

theorem runMutationsLoop_nil (runner : RunnerFn) (f : Nat) :
    runMutationsLoop runner [] f = ([], .ok ([], f)) := rfl

theorem runMutationsLoop_cons (runner : RunnerFn) (m : Str) (rest : List Str) (f : Nat) :
    runMutationsLoop runner (m :: rest) f =
      match Mutation.fromLine m with
      | .error e => ([], .error e)
      | .ok mutation =>
        match runner mutation.count with
        | .error e => ([.mutationRun mutation.count], .error e)
        | .ok result =>
          (.mutationRun mutation.count ::
              (runMutationsLoop runner rest
                (if result = Status.success then f + 1 else f)).1,
            (runMutationsLoop runner rest
                (if result = Status.success then f + 1 else f)).2.map
              (fun p =>
                ((mutation,
                    if result = Status.success then Verdict.survived else Verdict.caught) :: p.1,
                  p.2))) := rfl

/-- Count of survived verdicts in a result list. -/
def survivedCount (res : List (Mutation × Verdict)) : Nat :=
  res.countP (fun mv => decide (mv.2 = Verdict.survived))

/-- Count of caught verdicts in a result list. -/
def caughtVerdictCount (res : List (Mutation × Verdict)) : Nat :=
  res.countP (fun mv => decide (mv.2 = Verdict.caught))

theorem survivedCount_cons (mv : Mutation × Verdict) (res : List (Mutation × Verdict)) :
    survivedCount (mv :: res) =
      survivedCount res + (if mv.2 = Verdict.survived then 1 else 0) := by
  simp [survivedCount, List.countP_cons]

theorem caughtVerdictCount_cons (mv : Mutation × Verdict) (res : List (Mutation × Verdict)) :
    caughtVerdictCount (mv :: res) =
      caughtVerdictCount res + (if mv.2 = Verdict.caught then 1 else 0) := by
  simp [caughtVerdictCount, List.countP_cons]

theorem runMutationsLoop_ok_spec (runner : RunnerFn) :
    ∀ (list : List Str) (f0 : Nat) (evs : List Event) (res : List (Mutation × Verdict)) (f : Nat),
      runMutationsLoop runner list f0 = (evs, .ok (res, f)) →
      res.length = list.length ∧
      f = f0 + survivedCount res ∧
      (∀ mv ∈ res, ∃ st, runner mv.1.count = .ok st ∧
        (mv.2 = Verdict.survived ↔ st = Status.success)) := by
  intro list
  induction list with
  | nil =>
    intro f0 evs res f h
    rw [runMutationsLoop_nil] at h
    simp only [Prod.mk.injEq, Except.ok.injEq] at h
    obtain ⟨-, hres, hf⟩ := h
    subst hres; subst hf
    exact ⟨rfl, by simp [survivedCount], by simp⟩
  | cons m rest ih =>
    intro f0 evs res f h
    rw [runMutationsLoop_cons] at h
    split at h
    · simp at h
    · rename_i mutation hm
      split at h
      · simp at h
      · rename_i st hr
        rcases hrec : runMutationsLoop runner rest (if st = Status.success then f0 + 1 else f0)
          with ⟨evs', r⟩
        rw [hrec] at h
        cases r with
        | error e => simp [exceptMap_error] at h
        | ok p =>
          obtain ⟨res', f'⟩ := p
          simp only [exceptMap_ok, Prod.mk.injEq, Except.ok.injEq] at h
          obtain ⟨-, hres, hf⟩ := h
          obtain ⟨ih1, ih2, ih3⟩ := ih _ _ _ _ hrec
          subst hres; subst hf
          refine ⟨by simp [ih1], ?_, ?_⟩
          · rw [survivedCount_cons]
            dsimp only
            by_cases hs : st = Status.success
            · rw [if_pos hs] at ih2
              rw [if_pos hs, if_pos rfl]
              omega
            · rw [if_neg hs] at ih2
              rw [if_neg hs, if_neg (by decide : ¬ (Verdict.caught = Verdict.survived))]
              omega
          · intro mv hmv
            rcases List.mem_cons.mp hmv with heq | hmem
            · subst heq
              refine ⟨st, hr, ?_⟩
              by_cases hs : st = Status.success
              · simp [hs]
              · simp [hs]
            · exact ih3 mv hmem

theorem runMutations_ok_spec {runner : RunnerFn} {list : List Str} {evs : List Event}
    {s : Summary} (h : runMutations runner list = (evs, .ok s)) :
    ∃ res f, runMutationsLoop runner list 0 = (evs, .ok (res, f)) ∧
      s = ⟨res, if f = 0 then "ok".toList else "FAILED".toList, list.length - f, f⟩ := by
  rw [runMutations] at h
  rcases hl : runMutationsLoop runner list 0 with ⟨evs', r⟩
  rw [hl] at h
  cases r with
  | error e => simp [exceptMap_error] at h
  | ok p =>
    obtain ⟨res, f⟩ := p
    simp only [exceptMap_ok, Prod.mk.injEq, Except.ok.injEq] at h
    obtain ⟨hevs, hs2⟩ := h
    exact ⟨res, f, by rw [hevs], hs2.symm⟩

theorem runMutationsLoop_cons_parseErr (runner : RunnerFn) (m : Str) (rest : List Str)
    (f : Nat) (e : Err) (hm : Mutation.fromLine m = .error e) :
    runMutationsLoop runner (m :: rest) f = ([], .error e) := by
  rw [runMutationsLoop_cons, hm]

theorem runMutationsLoop_cons_runErr (runner : RunnerFn) (m : Str) (rest : List Str)
    (f : Nat) (mutation : Mutation) (e : Err) (hm : Mutation.fromLine m = .ok mutation)
    (hr : runner mutation.count = .error e) :
    runMutationsLoop runner (m :: rest) f = ([.mutationRun mutation.count], .error e) := by
  rw [runMutationsLoop_cons, hm]
  dsimp only
  rw [hr]

theorem runMutationsLoop_cons_ok (runner : RunnerFn) (m : Str) (rest : List Str)
    (f : Nat) (mutation : Mutation) (st : Status) (hm : Mutation.fromLine m = .ok mutation)
    (hr : runner mutation.count = .ok st) :
    runMutationsLoop runner (m :: rest) f =
      (.mutationRun mutation.count ::
          (runMutationsLoop runner rest
            (if st = Status.success then f + 1 else f)).1,
        (runMutationsLoop runner rest
            (if st = Status.success then f + 1 else f)).2.map
          (fun p =>
            ((mutation,
                if st = Status.success then Verdict.survived else Verdict.caught) :: p.1,
              p.2))) := by
  rw [runMutationsLoop_cons, hm]
  dsimp only
  rw [hr]

theorem runMutationsLoop_abort (runner : RunnerFn) {l : Str} {e : Err}
    (hl : Mutation.fromLine l = .error e) :
    ∀ (pre : List Str) (post : List Str) (f0 : Nat),
      (∃ e2, (runMutationsLoop runner (pre ++ l :: post) f0).2 = .error e2) ∧
      (runMutationsLoop runner (pre ++ l :: post) f0).1.length ≤ pre.length := by
  intro pre
  induction pre with
  | nil =>
    intro post f0
    rw [List.nil_append, runMutationsLoop_cons_parseErr runner l post f0 e hl]
    exact ⟨⟨e, rfl⟩, Nat.le_refl 0⟩
  | cons m pre' ih =>
    intro post f0
    rw [List.cons_append]
    cases hm : Mutation.fromLine m with
    | error e2 =>
      rw [runMutationsLoop_cons_parseErr runner m _ f0 e2 hm]
      exact ⟨⟨e2, rfl⟩, Nat.zero_le _⟩
    | ok mutation =>
      cases hr : runner mutation.count with
      | error e2 =>
        rw [runMutationsLoop_cons_runErr runner m _ f0 mutation e2 hm hr]
        exact ⟨⟨e2, rfl⟩, Nat.succ_le_succ (Nat.zero_le _)⟩
      | ok st =>
        rw [runMutationsLoop_cons_ok runner m _ f0 mutation st hm hr]
        obtain ⟨⟨e2, he2⟩, hlen⟩ := ih post (if st = Status.success then f0 + 1 else f0)
        refine ⟨⟨e2, ?_⟩, ?_⟩
        · dsimp only
          rw [he2, exceptMap_error]
        · dsimp only
          simp only [List.length_cons]
          exact Nat.succ_le_succ hlen

theorem runMutationsLoop_events (runner : RunnerFn) :
    ∀ (list : List Str) (f0 : Nat) (ev : Event),
      ev ∈ (runMutationsLoop runner list f0).1 → ∃ c, ev = Event.mutationRun c := by
  intro list
  induction list with
  | nil => intro f0 ev h; rw [runMutationsLoop_nil] at h; simp at h
  | cons m rest ih =>
    intro f0 ev h
    cases hm : Mutation.fromLine m with
    | error e =>
      rw [runMutationsLoop_cons_parseErr runner m rest f0 e hm] at h
      simp at h
    | ok mutation =>
      cases hr : runner mutation.count with
      | error e =>
        rw [runMutationsLoop_cons_runErr runner m rest f0 mutation e hm hr] at h
        simp at h
        exact ⟨mutation.count, h⟩
      | ok st =>
        rw [runMutationsLoop_cons_ok runner m rest f0 mutation st hm hr] at h
        dsimp only at h
        rcases List.mem_cons.mp h with heq | hmem
        · exact ⟨mutation.count, heq⟩
        · exact ih _ ev hmem

theorem verdict_dichotomy (res : List (Mutation × Verdict)) :
    res.length = survivedCount res + caughtVerdictCount res := by
  induction res with
  | nil => simp [survivedCount, caughtVerdictCount]
  | cons mv rest ih =>
    simp only [List.length_cons, survivedCount, caughtVerdictCount, List.countP_cons] at ih ⊢
    cases hv : mv.2 <;> simp [hv] <;> omega

theorem runMutations_fst (runner : RunnerFn) (list : List Str) :
    (runMutations runner list).1 = (runMutationsLoop runner list 0).1 := rfl

theorem runMutations_snd_error {runner : RunnerFn} {list : List Str} {e : Err}
    (h : (runMutationsLoop runner list 0).2 = .error e) :
    (runMutations runner list).2 = .error e := by
  rw [runMutations]
  dsimp only
  rw [h, exceptMap_error]

/-! ### Properties of the orchestrator -/

theorem runExes_nil (env : Env) (list : List Str) :
    runExes env list [] = ([], .ok []) := rfl

theorem runExes_cons (env : Env) (list : List Str) (exe : Str) (rest : List Str) :
    runExes env list (exe :: rest) =
      match env.runnerRun exe 0 with
      | .error e => ([.baselineRun], .error (horribleMsg e))
      | .ok _ =>
        match (runMutations (env.runnerRun exe) list).2 with
        | .error e => (.baselineRun :: (runMutations (env.runnerRun exe) list).1, .error e)
        | .ok summary =>
          (.baselineRun ::
              ((runMutations (env.runnerRun exe) list).1 ++ (runExes env list rest).1),
            (runExes env list rest).2.map (fun ss => summary :: ss)) := rfl

theorem run_eq (env : Env) :
    run env =
      match env.compileTests with
      | .error e => ([], .error e)
      | .ok tests =>
        if tests.isEmpty then ([], .error noExeMsg)
        else
          match env.mutationsFilename with
          | .error e => ([], .error e)
          | .ok _ =>
            match readMutations env.fileContent with
            | .error e => ([], .error e)
            | .ok list =>
              (Event.removeLoops :: (runExes env list tests).1,
                (runExes env list tests).2) := rfl

theorem runExes_events (env : Env) (list : List Str) :
    ∀ (tests : List Str) (ev : Event),
      ev ∈ (runExes env list tests).1 → ev ≠ Event.removeLoops := by
  intro tests
  induction tests with
  | nil => intro ev h; rw [runExes_nil] at h; simp at h
  | cons exe rest ih =>
    intro ev h
    rw [runExes_cons] at h
    cases hb : env.runnerRun exe 0 with
    | error e =>
      rw [hb] at h
      dsimp only at h
      simp only [List.mem_singleton] at h
      subst h
      decide
    | ok st =>
      rw [hb] at h
      dsimp only at h
      cases hres : (runMutations (env.runnerRun exe) list).2 with
      | error e =>
        rw [hres] at h
        dsimp only at h
        rcases List.mem_cons.mp h with heq | hmem
        · subst heq; decide
        · obtain ⟨c, hc⟩ := runMutationsLoop_events (env.runnerRun exe) list 0 ev hmem
          subst hc
          simp
      | ok summary =>
        rw [hres] at h
        dsimp only at h
        rcases List.mem_cons.mp h with heq | hmem
        · subst heq; decide
        · rcases List.mem_append.mp hmem with h1 | h2
          · obtain ⟨c, hc⟩ := runMutationsLoop_events (env.runnerRun exe) list 0 ev h1
            subst hc
            simp
          · exact ih ev h2

/-! ### Case equations and first-occurrence windows for `Mutation.fromLine` -/

theorem fromLine_noSep1 (line : Str) (h : findSplit sep1 line = none) :
    Mutation.fromLine line = .error (countSepMsg line) := by
  rw [Mutation.fromLine, h]

theorem fromLine_noSep2 (line c t : Str) (h1 : findSplit sep1 line = some (c, t))
    (h2 : findSplit sep2 t = none) :
    Mutation.fromLine line = .error (descSepMsg line) := by
  rw [Mutation.fromLine, h1]
  dsimp only
  rw [h2]

theorem fromLine_parseErr (line c t d sp : Str) (e : Err)
    (h1 : findSplit sep1 line = some (c, t)) (h2 : findSplit sep2 t = some (d, sp))
    (h3 : parseUsize c = .error e) : Mutation.fromLine line = .error e := by
  rw [Mutation.fromLine, h1]
  dsimp only
  rw [h2]
  dsimp only
  rw [h3]

theorem fromLine_ok (line c t d sp : Str) (n : Nat)
    (h1 : findSplit sep1 line = some (c, t)) (h2 : findSplit sep2 t = some (d, sp))
    (h3 : parseUsize c = .ok n) : Mutation.fromLine line = .ok ⟨n, d, sp⟩ := by
  rw [Mutation.fromLine, h1]
  dsimp only
  rw [h2]
  dsimp only
  rw [h3]

theorem isPrefix_cons_ne {a c : Char} (h : a ≠ c) (rest t : Str) :
    isPrefix (a :: rest) (c :: t) = false := by
  simp [isPrefix, h]

theorem window_digits (ds X : Str) (hd : ∀ c ∈ ds, '0' ≤ c ∧ c ≤ '9') (rest : Str) :
    ∀ i < ds.length, isPrefix (' ' :: rest) ((ds ++ X).drop i) = false := by
  intro i hi
  rw [List.drop_append_of_le_length (le_of_lt hi), List.drop_eq_getElem_cons hi,
    List.cons_append]
  have hc := hd ds[i] (ds.getElem_mem hi)
  exact isPrefix_cons_ne (fun he => absurd (he.symm ▸ hc.1) (by decide)) rest _

theorem window_desc (desc span : Str) (hdesc : occurs sep2 (desc ++ [' ', '@']) = false) :
    ∀ i < desc.length, isPrefix sep2 ((desc ++ (sep2 ++ span)).drop i) = false := by
  intro i hi
  have hle : i ≤ desc.length := le_of_lt hi
  have hdrop1 : (desc ++ (sep2 ++ span)).drop i = desc.drop i ++ (sep2 ++ span) :=
    List.drop_append_of_le_length hle
  have hdrop2 : (desc ++ [' ', '@']).drop i = desc.drop i ++ [' ', '@'] :=
    List.drop_append_of_le_length hle
  have hassoc : desc.drop i ++ (sep2 ++ span) = (desc.drop i ++ [' ', '@']) ++ (' ' :: span) := by
    have h32 : (sep2 ++ span : Str) = [' ', '@'] ++ (' ' :: span) := rfl
    rw [h32, ← List.append_assoc]
  have htake : (desc.drop i ++ (sep2 ++ span)).take sep2.length =
      (desc.drop i ++ [' ', '@']).take sep2.length := by
    rw [hassoc]
    apply List.take_append_of_le_length
    simp only [List.length_append, List.length_drop, List.length_cons]
    show sep2.length ≤ desc.length - i + 2
    have h3 : sep2.length = 3 := rfl
    omega
  have hcongr := isPrefix_congr (p := sep2) htake
  rw [hdrop1, hcongr]
  cases hfp : isPrefix sep2 (desc.drop i ++ [' ', '@']) with
  | false => rfl
  | true =>
    exfalso
    have hoc : occurs sep2 (desc ++ [' ', '@']) = true := by
      apply occurs_of_isPrefix_drop i
      rw [hdrop2]
      exact hfp
    rw [hdesc] at hoc
    exact Bool.noConfusion hoc

/-! ### The claims -/

/-- C1: for every mutation in the catalog list, a passing runner outcome
yields the verdict survived and a failing or timed-out outcome yields the
verdict caught; the total mutation count equals the survived count plus the
caught count (and the printed counts agree with the verdict counts). -/
theorem claim_C1 (runner : RunnerFn) (list : List Str) (evs : List Event) (s : Summary)
    (h : runMutations runner list = (evs, .ok s)) :
    (∀ mv ∈ s.results,
      (runner mv.1.count = .ok Status.success → mv.2 = Verdict.survived) ∧
      ((runner mv.1.count = .ok Status.failure ∨ runner mv.1.count = .ok Status.timeout) →
        mv.2 = Verdict.caught)) ∧
    list.length = survivedCount s.results + caughtVerdictCount s.results ∧
    s.undetectedCount = survivedCount s.results ∧
    s.caughtCount = caughtVerdictCount s.results := by
  obtain ⟨res, f, hloop, hs⟩ := runMutations_ok_spec h
  obtain ⟨hlen, hf, hmv⟩ := runMutationsLoop_ok_spec runner list 0 evs res f hloop
  subst hs
  dsimp only
  have hdich := verdict_dichotomy res
  refine ⟨?_, ?_, ?_, ?_⟩
  · intro mv hmem
    obtain ⟨st, hst, hiff⟩ := hmv mv hmem
    constructor
    · intro hp
      rw [hst] at hp
      have hs2 : st = Status.success := by injection hp
      exact hiff.mpr hs2
    · intro hnp
      cases hv : mv.2 with
      | caught => rfl
      | survived =>
        exfalso
        have hsucc : st = Status.success := hiff.mp hv
        rcases hnp with h1 | h1
        · rw [hst] at h1
          injection h1 with h2
          rw [hsucc] at h2
          exact Status.noConfusion h2
        · rw [hst] at h1
          injection h1 with h2
          rw [hsucc] at h2
          exact Status.noConfusion h2
  · rw [← hlen]
    exact hdich
  · omega
  · omega

/-- C1 witness: a one-line catalog whose mutation is caught. -/
theorem witness_C1 :
    (∀ mv ∈ [((⟨1, "d".toList, "s".toList⟩ : Mutation), Verdict.caught)],
      ((fun _ => (Except.ok Status.failure : Except Err Status)) mv.1.count =
          .ok Status.success → mv.2 = Verdict.survived) ∧
      (((fun _ => (Except.ok Status.failure : Except Err Status)) mv.1.count =
            .ok Status.failure ∨
          (fun _ => (Except.ok Status.failure : Except Err Status)) mv.1.count =
            .ok Status.timeout) →
        mv.2 = Verdict.caught)) ∧
    1 = survivedCount [((⟨1, "d".toList, "s".toList⟩ : Mutation), Verdict.caught)] +
      caughtVerdictCount [((⟨1, "d".toList, "s".toList⟩ : Mutation), Verdict.caught)] ∧
    0 = survivedCount [((⟨1, "d".toList, "s".toList⟩ : Mutation), Verdict.caught)] ∧
    1 = caughtVerdictCount [((⟨1, "d".toList, "s".toList⟩ : Mutation), Verdict.caught)] :=
  claim_C1 (fun _ => Except.ok Status.failure) ["1 - d @ s".toList] [Event.mutationRun 1]
    ⟨[(⟨1, "d".toList, "s".toList⟩, Verdict.caught)], "ok".toList, 1, 0⟩ (by decide)

/-- C2 counterexample: a completed run whose only mutation SURVIVED still
exits with code 0, refuting "survivors imply a nonzero exit code". -/
theorem counterexample_C2 :
    mainExitCode envSurvivor = 0 ∧
    (run envSurvivor).2 =
      .ok [⟨[(⟨1, "d".toList, "s".toList⟩, Verdict.survived)], "FAILED".toList, 0, 1⟩] := by
  decide

/-- C2 (amended): the process exits nonzero iff `run()` returned a fatal
error; a completed run exits zero regardless of how many mutations
survived. -/
theorem claim_C2 (env : Env) :
    (mainExitCode env = 1 ↔ ∃ e, (run env).2 = .error e) ∧
    (∀ ss, (run env).2 = .ok ss → mainExitCode env = 0) ∧
    (mainExitCode env = 0 ∨ mainExitCode env = 1) := by
  cases hres : (run env).2 with
  | ok ss =>
    have h0 : mainExitCode env = 0 := by rw [mainExitCode, hres]
    refine ⟨⟨?_, ?_⟩, fun _ _ => h0, Or.inl h0⟩
    · intro h1
      rw [h0] at h1
      exact absurd h1 (by decide)
    · rintro ⟨e, he⟩
      exact Except.noConfusion he
  | error e =>
    have h1 : mainExitCode env = 1 := by rw [mainExitCode, hres]
    refine ⟨⟨fun _ => ⟨e, rfl⟩, fun _ => h1⟩, ?_, Or.inr h1⟩
    intro ss hss
    exact Except.noConfusion hss

/-- C3: the code violates the baseline invariant.  With a baseline whose
tests fail (the runner returns `Ok(Failure)` for id 0, not a hard error),
`run()` does not abort: it still runs the mutation loop and produces a
mutation verdict. -/
theorem claim_C3 :
    envBaselineFails.runnerRun "exe".toList 0 = .ok Status.failure ∧
    (run envBaselineFails).2 =
      .ok [⟨[(⟨1, "d".toList, "s".toList⟩, Verdict.caught)], "ok".toList, 1, 0⟩] := by
  decide

/-- C4 counterexample: with a catalog whose second line is malformed, the
first mutation IS executed before the parse error aborts the loop. -/
theorem counterexample_C4 :
    (runMutations (fun _ => Except.ok Status.failure)
        ["1 - d @ s".toList, "x".toList]).1 = [Event.mutationRun 1] ∧
    Mutation.fromLine "x".toList = .error (countSepMsg "x".toList) := by
  decide

/-- C4 (amended): a malformed catalog line is fatal when reached:
`run_mutations` returns an error, and no mutation at or after the offending
line is executed (at most the mutations of the preceding lines run). -/
theorem claim_C4 (runner : RunnerFn) (pre post : List Str) (l : Str) (e : Err)
    (hl : Mutation.fromLine l = .error e) :
    (∃ e2, (runMutations runner (pre ++ l :: post)).2 = .error e2) ∧
    (runMutations runner (pre ++ l :: post)).1.length ≤ pre.length := by
  obtain ⟨⟨e2, he2⟩, hlen⟩ := runMutationsLoop_abort runner hl pre post 0
  refine ⟨⟨e2, runMutations_snd_error he2⟩, ?_⟩
  rw [runMutations_fst]
  exact hlen

/-- C4 witness: one good line before the malformed one. -/
theorem witness_C4 :
    (∃ e2, (runMutations (fun _ => Except.ok Status.success)
        (["1 - d @ s".toList] ++ "x".toList :: [])).2 = .error e2) ∧
    (runMutations (fun _ => Except.ok Status.success)
        (["1 - d @ s".toList] ++ "x".toList :: [])).1.length ≤ 1 :=
  claim_C4 (fun _ => Except.ok Status.success) ["1 - d @ s".toList] [] "x".toList
    (countSepMsg "x".toList) (by decide)

/-- C7: the reported overall status is "ok" iff the printed caught count
equals the total mutation count (equivalently, zero survivors), and
otherwise the status is the failure marker (printed as "FAILED"). -/
theorem claim_C7 (runner : RunnerFn) (list : List Str) (evs : List Event) (s : Summary)
    (h : runMutations runner list = (evs, .ok s)) :
    (s.status = "ok".toList ↔ s.caughtCount = list.length) ∧
    (s.status = "ok".toList ↔ s.undetectedCount = 0) ∧
    (s.status = "ok".toList ∨ s.status = "FAILED".toList) := by
  obtain ⟨res, f, hloop, hs⟩ := runMutations_ok_spec h
  obtain ⟨hlen, hf, -⟩ := runMutationsLoop_ok_spec runner list 0 evs res f hloop
  subst hs
  dsimp only
  have hsc : survivedCount res ≤ res.length := by
    rw [survivedCount]
    exact List.countP_le_length _
  by_cases hzero : f = 0
  · rw [if_pos hzero]
    refine ⟨⟨fun _ => by omega, fun _ => rfl⟩, ⟨fun _ => hzero, fun _ => rfl⟩, Or.inl rfl⟩
  · rw [if_neg hzero]
    have hne : ("FAILED".toList : Str) ≠ "ok".toList := by decide
    refine ⟨⟨fun hcon => absurd hcon hne, fun hcl => ?_⟩,
      ⟨fun hcon => absurd hcon hne, fun h0 => absurd h0 hzero⟩, Or.inr rfl⟩
    exfalso
    omega

/-- C7 witness: a one-line catalog whose mutation survives. -/
theorem witness_C7 :
    (("FAILED".toList : Str) = "ok".toList ↔ (0 : Nat) = 1) ∧
    (("FAILED".toList : Str) = "ok".toList ↔ (1 : Nat) = 0) ∧
    (("FAILED".toList : Str) = "ok".toList ∨ ("FAILED".toList : Str) = "FAILED".toList) :=
  claim_C7 (fun _ => Except.ok Status.success) ["1 - d @ s".toList] [Event.mutationRun 1]
    ⟨[(⟨1, "d".toList, "s".toList⟩, Verdict.survived)], "FAILED".toList, 0, 1⟩ (by decide)

/-- C8: reading the catalog content never fails, skips every blank (empty)
line, and keeps every non-blank line in its original order (the resulting
list is a sublist of the split lines). -/
theorem claim_C8 (s : Str) :
    readMutations (.ok s) = .ok ((splitNl s).filter (fun l => !l.isEmpty)) ∧
    List.Sublist ((splitNl s).filter (fun l => !l.isEmpty)) (splitNl s) ∧
    (∀ l ∈ splitNl s, l ≠ [] → l ∈ (splitNl s).filter (fun l => !l.isEmpty)) ∧
    (∀ l ∈ (splitNl s).filter (fun l => !l.isEmpty), l ≠ []) := by
  refine ⟨rfl, List.filter_sublist _, ?_, ?_⟩
  · intro l hl hne
    rw [List.mem_filter]
    refine ⟨hl, ?_⟩
    cases l with
    | nil => exact absurd rfl hne
    | cons a as => rfl
  · intro l hl
    rw [List.mem_filter] at hl
    obtain ⟨-, hb⟩ := hl
    intro hnil
    subst hnil
    simp at hb

/-- C9: whenever the orchestrator emits any event at all, the very first one
is the removal of the persisted loops side file, and no later event is a
removal — so the side file is removed before any baseline or mutation
execution of any test executable. -/
theorem claim_C9 (env : Env) :
    ((run env).1 ≠ [] → (run env).1.head? = some Event.removeLoops) ∧
    (∀ ev ∈ (run env).1.tail, ev ≠ Event.removeLoops) := by
  rw [run_eq]
  cases hct : env.compileTests with
  | error e =>
    dsimp only
    exact ⟨fun hne => absurd rfl hne, by simp⟩
  | ok tests =>
    dsimp only
    by_cases hemp : tests.isEmpty
    · rw [if_pos hemp]
      exact ⟨fun hne => absurd rfl hne, by simp⟩
    · rw [if_neg hemp]
      cases hmf : env.mutationsFilename with
      | error e =>
        dsimp only
        exact ⟨fun hne => absurd rfl hne, by simp⟩
      | ok u =>
        dsimp only
        cases hrm : readMutations env.fileContent with
        | error e =>
          dsimp only
          exact ⟨fun hne => absurd rfl hne, by simp⟩
        | ok list =>
          dsimp only
          refine ⟨fun _ => rfl, ?_⟩
          intro ev hev
          exact runExes_events env list tests ev hev

/-- C9 witness: the removal is first in a run that reaches the loop. -/
theorem witness_C9 :
    ((run envSurvivor).1 ≠ [] → (run envSurvivor).1.head? = some Event.removeLoops) ∧
    (∀ ev ∈ (run envSurvivor).1.tail, ev ≠ Event.removeLoops) :=
  claim_C9 envSurvivor

/-- C5 counterexample: for the line `"1 - a @ b @ c"`, read as the form
`<n> - <desc> @ <span>` with desc = `"a @ b"` and span = `"c"` (desc is
claimed to be free text), parsing does NOT return that decomposition: it
splits at the first `" @ "`, yielding desc `"a"` and span `"b @ c"`. -/
theorem counterexample_C5 :
    Mutation.fromLine "1 - a @ b @ c".toList ≠
      .ok ⟨1, "a @ b".toList, "c".toList⟩ ∧
    Mutation.fromLine "1 - a @ b @ c".toList = .ok ⟨1, "a".toList, "b @ c".toList⟩ := by
  decide

/-- C5 (amended): for a well-formed line `<digits> - <desc> @ <span>` whose
count is a digit string with value below `2^64` and whose description
introduces no earlier occurrence of `" @ "` (it neither contains `" @ "` nor
ends with `" @"`, i.e. `" @ "` does not occur in `desc ++ " @"`), parsing
yields exactly the written count value, description and span. -/
theorem claim_C5 (ds desc span : Str) (h0 : ds ≠ [])
    (hd : ∀ c ∈ ds, '0' ≤ c ∧ c ≤ '9') (hb : digitsAccVal 0 ds < usizeBound)
    (hdesc : occurs sep2 (desc ++ [' ', '@']) = false) :
    Mutation.fromLine (ds ++ (sep1 ++ (desc ++ (sep2 ++ span)))) =
      .ok ⟨digitsAccVal 0 ds, desc, span⟩ := by
  have hsplit1 : findSplit sep1 (ds ++ (sep1 ++ (desc ++ (sep2 ++ span)))) =
      some (ds, desc ++ (sep2 ++ span)) := by
    apply findSplit_append (by decide)
    intro i hi
    have hrw : sep1 = ' ' :: ['-', ' '] := rfl
    rw [hrw]
    exact window_digits ds _ hd _ i hi
  have hsplit2 : findSplit sep2 (desc ++ (sep2 ++ span)) = some (desc, span) :=
    findSplit_append (by decide) desc span (window_desc desc span hdesc)
  have hparse : parseUsize ds = .ok (digitsAccVal 0 ds) := parseUsize_digits h0 hd hb
  exact fromLine_ok _ ds (desc ++ (sep2 ++ span)) desc span (digitsAccVal 0 ds)
    hsplit1 hsplit2 hparse

/-- C5 witness: the spec's own example line. -/
theorem witness_C5 :
    Mutation.fromLine ("2".toList ++ (sep1 ++ ("add one to int constant".toList ++
        (sep2 ++ "src/lib.rs:27:21: 27:22".toList)))) =
      .ok ⟨digitsAccVal 0 "2".toList, "add one to int constant".toList,
        "src/lib.rs:27:21: 27:22".toList⟩ :=
  claim_C5 "2".toList "add one to int constant".toList "src/lib.rs:27:21: 27:22".toList
    (by decide) (by decide) (by decide) (by decide)

/-- C6 counterexample: a line whose count field is malformed IS rejected,
but the error message is the integer-parse failure message, which does not
name (contain) the offending line. -/
theorem counterexample_C6 :
    Mutation.fromLine "x - d @ s".toList = .error invalidDigitMsg ∧
    occurs "x - d @ s".toList invalidDigitMsg = false := by
  decide

/-- C6 (amended): a missing `" - "` or `" @ "` separator is a fatal parse
error whose message names (contains) the offending line; a count field that
does not parse as a `usize` is also fatal, but its error carries only the
integer-parse failure message, never the line; parsing returns `Ok` exactly
for lines with both separators and a parsing count. -/
theorem claim_C6 (line : Str) :
    (findSplit sep1 line = none →
      Mutation.fromLine line = .error (countSepMsg line) ∧
        occurs line (countSepMsg line) = true) ∧
    (∀ c t, findSplit sep1 line = some (c, t) → findSplit sep2 t = none →
      Mutation.fromLine line = .error (descSepMsg line) ∧
        occurs line (descSepMsg line) = true) ∧
    (∀ c t d sp, ∀ e : Err, findSplit sep1 line = some (c, t) →
      findSplit sep2 t = some (d, sp) → parseUsize c = .error e →
      Mutation.fromLine line = .error e ∧
        (e = emptyIntMsg ∨ e = invalidDigitMsg ∨ e = posOverflowMsg) ∧
        occurs line e = false) ∧
    ((∃ m, Mutation.fromLine line = .ok m) ↔
      ∃ c t d sp n, findSplit sep1 line = some (c, t) ∧ findSplit sep2 t = some (d, sp) ∧
        parseUsize c = .ok n) := by
  have hocc : ∀ pfx : Str, occurs line (pfx ++ line) = true := by
    intro pfx
    have := occurs_append_middle pfx line []
    simpa using this
  refine ⟨?_, ?_, ?_, ?_⟩
  · intro h1
    exact ⟨fromLine_noSep1 line h1, hocc _⟩
  · intro c t h1 h2
    exact ⟨fromLine_noSep2 line c t h1 h2, hocc _⟩
  · intro c t d sp e h1 h2 h3
    refine ⟨fromLine_parseErr line c t d sp e h1 h2 h3, parseUsize_error h3, ?_⟩
    obtain ⟨hd1, -⟩ := findSplit_some (by decide : sep1 ≠ ([] : Str)) h1
    have hline_ne : line ≠ [] := by
      rw [hd1]
      intro hnil
      rcases List.append_eq_nil.mp hnil with ⟨h4, -⟩
      rcases List.append_eq_nil.mp h4 with ⟨-, h5⟩
      exact absurd h5 (by decide)
    have hocc1 : occurs sep1 line = true := by
      rw [hd1, List.append_assoc]
      exact occurs_append_middle c sep1 t
    cases hocc2 : occurs line e with
    | false => rfl
    | true =>
      exfalso
      have htr : occurs sep1 e = true :=
        occurs_trans (by decide) hline_ne hocc1 hocc2
      rcases parseUsize_error h3 with he | he | he <;> rw [he] at htr <;>
        exact absurd htr (by decide)
  · constructor
    · rintro ⟨m, hm⟩
      cases hs1 : findSplit sep1 line with
      | none =>
        rw [fromLine_noSep1 line hs1] at hm
        exact Except.noConfusion hm
      | some p =>
        obtain ⟨c, t⟩ := p
        cases hs2 : findSplit sep2 t with
        | none =>
          rw [fromLine_noSep2 line c t hs1 hs2] at hm
          exact Except.noConfusion hm
        | some q =>
          obtain ⟨d, sp⟩ := q
          cases hp : parseUsize c with
          | error e =>
            rw [fromLine_parseErr line c t d sp e hs1 hs2 hp] at hm
            exact Except.noConfusion hm
          | ok n => exact ⟨c, t, d, sp, n, rfl, hs2, hp⟩
    · rintro ⟨c, t, d, sp, n, h1, h2, h3⟩
      exact ⟨⟨n, d, sp⟩, fromLine_ok line c t d sp n h1 h2 h3⟩

/-- C10: parsing splits at the first occurrence of each separator: the count
is the text before the FIRST `" - "` of the line, the description is the text
between that and the FIRST subsequent `" @ "`, and the span is the entire
remainder (so a span may contain more separators, and a description may
contain `" - "` but never `" @ "`). -/
theorem claim_C10 (line : Str) (m : Mutation) (h : Mutation.fromLine line = .ok m) :
    ∃ strCount : Str,
      line = strCount ++ sep1 ++ (m.description ++ sep2 ++ m.span) ∧
      parseUsize strCount = .ok m.count ∧
      (∀ i < strCount.length, isPrefix sep1 (line.drop i) = false) ∧
      (∀ i < m.description.length,
        isPrefix sep2 ((m.description ++ sep2 ++ m.span).drop i) = false) := by
  cases hs1 : findSplit sep1 line with
  | none =>
    rw [fromLine_noSep1 line hs1] at h
    exact Except.noConfusion h
  | some p =>
    obtain ⟨strCount, tail⟩ := p
    cases hs2 : findSplit sep2 tail with
    | none =>
      rw [fromLine_noSep2 line strCount tail hs1 hs2] at h
      exact Except.noConfusion h
    | some q =>
      obtain ⟨description, span⟩ := q
      cases hp : parseUsize strCount with
      | error e =>
        rw [fromLine_parseErr line strCount tail description span e hs1 hs2 hp] at h
        exact Except.noConfusion h
      | ok n =>
        rw [fromLine_ok line strCount tail description span n hs1 hs2 hp] at h
        injection h with h2
        subst h2
        dsimp only
        obtain ⟨hd1, hw1⟩ := findSplit_some (by decide : sep1 ≠ ([] : Str)) hs1
        obtain ⟨hd2, hw2⟩ := findSplit_some (by decide : sep2 ≠ ([] : Str)) hs2
        refine ⟨strCount, ?_, hp, hw1, ?_⟩
        · rw [hd1, hd2]
        · rw [← hd2]
          exact hw2

/-- C10 witness: the spec's example line, decomposed at the first
separators. -/
theorem witness_C10 :
    ∃ strCount : Str,
      "2 - add one to int constant @ src/lib.rs:27:21: 27:22".toList =
        strCount ++ sep1 ++ ("add one to int constant".toList ++ sep2 ++
          "src/lib.rs:27:21: 27:22".toList) ∧
      parseUsize strCount = .ok 2 ∧
      (∀ i < strCount.length,
        isPrefix sep1
          ("2 - add one to int constant @ src/lib.rs:27:21: 27:22".toList.drop i) = false) ∧
      (∀ i < ("add one to int constant".toList : Str).length,
        isPrefix sep2 (("add one to int constant".toList ++ sep2 ++
          "src/lib.rs:27:21: 27:22".toList).drop i) = false) :=
  claim_C10 "2 - add one to int constant @ src/lib.rs:27:21: 27:22".toList
    ⟨2, "add one to int constant".toList, "src/lib.rs:27:21: 27:22".toList⟩ (by decide)

end Mutagen
